import Mathlib

/-!
Shallow embedding of `vinted_scraper.py` (Vinted UK web scraper).

Strings are modelled as `List Char`; Python floats are modelled as `ℚ`
(all prices in play are short decimal literals, which ℚ represents
exactly); the Selenium page is modelled as an abstract `Page` record
exposing the query operations the scraper uses, with `Except Unit`
capturing "this call raised".
-/

namespace VintedScraper

/-- Whitespace recognised by Python's `str.strip()` (ASCII part): space, tab,
newline, carriage return, vertical tab, form feed. -/
def isPySpace (c : Char) : Bool :=
  c.toNat = 32 || c.toNat = 9 || c.toNat = 10 || c.toNat = 13 || c.toNat = 11 || c.toNat = 12

/-- ASCII decimal digit, as matched by the regex class in the source. -/
def isDigitC (c : Char) : Bool :=
  48 ≤ c.toNat && c.toNat ≤ 57

/-- Python `str.strip()`: drop leading and trailing whitespace. -/
def pyStrip (l : List Char) : List Char :=
  ((l.dropWhile isPySpace).reverse.dropWhile isPySpace).reverse

/-- The numeric value of a digit string, most significant digit first
(how Python's `float`/`int` read a run of digits). -/
def natOfDigits (l : List Char) : Nat :=
  l.foldl (fun a c => 10 * a + (c.toNat - 48)) 0

/-- Character test used when removing the currency symbol. -/
def notPound (c : Char) : Bool := c ≠ '£'

/-- Character test used when splitting a float literal at its decimal point. -/
def notDot (c : Char) : Bool := c ≠ '.'

/-- Python `float(s)` restricted to the sign-free decimal literals that can
reach it in `clean_price` (a run of digits, optionally a decimal point and
more digits); any other shape fails, modelling `ValueError`. -/
def pyFloat (l : List Char) : Option ℚ :=
  let ip := l.takeWhile notDot
  let rest := l.dropWhile notDot
  if ip.all isDigitC then
    match rest with
    | [] => if ip = [] then none else some (natOfDigits ip)
    | _ :: fp =>
      if fp.all isDigitC && (decide (ip ≠ []) || decide (fp ≠ [])) then
        some ((natOfDigits ip : ℚ) + (natOfDigits fp : ℚ) / 10 ^ fp.length)
      else none
  else none

/-- The substring matched by `re.search(r'(\d+\.?\d*)', ·)` once its first
character (the first digit) has been located: a greedy digit run, an optional
decimal point, then a greedy (possibly empty) digit run. -/
def tokenAt (l : List Char) : List Char :=
  let ds := l.takeWhile isDigitC
  match l.dropWhile isDigitC with
  | '.' :: rest => ds ++ '.' :: rest.takeWhile isDigitC
  | _ => ds

/-- Leftmost match of `re.search(r'(\d+\.?\d*)', ·)`: scan to the first digit
(a match must start with a digit) and take the maximal token there; `none`
when the string has no digit. -/
def findFirstNum : List Char → Option (List Char)
  | [] => none
  | c :: cs => if isDigitC c then some (tokenAt (c :: cs)) else findFirstNum cs

/-- Embedding of `clean_price`: falsy-empty check, remove every `'£'`, strip
whitespace, regex-search the first numeric token, convert with `float`
(the `except ValueError` branch yields `None`). -/
def clean_price (s : List Char) : Option ℚ :=
  if s = [] then none
  else
    match findFirstNum (pyStrip (s.filter notPound)) with
    | some tok =>
      match pyFloat tok with
      | some v => some v
      | none => none
    | none => none

/-- The parser algorithm as the spec words it: remove every `£`, trim, fail on
an empty remainder, else take the first maximal `digits [. digits*]` substring
and convert it, failing when no such substring exists. -/
def specParsePrice (s : List Char) : Option ℚ :=
  let r := pyStrip (s.filter notPound)
  if r = [] then none
  else
    match findFirstNum r with
    | some tok => pyFloat tok
    | none => none

/-- Embedding of `calculate_average_price`: `None` on an empty list, else
`sum(prices) / len(prices)`. -/
def calculate_average_price (prices : List ℚ) : Option ℚ :=
  if prices = [] then none
  else some (prices.sum / (prices.length : ℚ))

/-- The fixed catalog endpoint of the source. -/
def baseUrl : List Char := "https://www.vinted.co.uk/catalog".toList

/-- The space-to-plus substitution of `search_terms.replace(" ", "+")`. -/
def spaceToPlus (c : Char) : Char := if c = ' ' then '+' else c

/-- Embedding of `construct_search_url`: join brand, description and condition
with single spaces, strip, replace each space with `'+'`, append as the
`search_text` query parameter. -/
def construct_search_url (brand description condition : List Char) : List Char :=
  let searchTerms := pyStrip (brand ++ ' ' :: description ++ ' ' :: condition)
  let searchText := searchTerms.map spaceToPlus
  baseUrl ++ "?search_text=".toList ++ searchText

/-- The five-entry condition menu of `get_user_input`. -/
def condition_menu : List (String × String) :=
  [("1", "New With Tags"), ("2", "New Without Tags"), ("3", "Very Good"),
   ("4", "Good"), ("5", "Satisfactory")]

/-- Python `str.strip()` on a `String`. -/
def pyStripS (s : String) : String :=
  String.mk (pyStrip s.toList)

/-- The `while condition is None` validation loop of `get_user_input`, fed the
successive menu answers of an input stream: strip each answer, accept it when
it is a menu key, otherwise re-prompt on the rest of the stream; `none` models
an exhausted stream (EOF). -/
def selectCondition : List String → Option String
  | [] => none
  | x :: rest =>
    match condition_menu.lookup (pyStripS x) with
    | some label => some label
    | none => selectCondition rest

/-- Embedding of `get_user_input`: the brand and description answers are
stripped, the condition comes from the validation loop over the menu
answers. -/
def get_user_input (brand description : String) (menuInputs : List String) :
    Option (String × String × String) :=
  (selectCondition menuInputs).map fun cond => (pyStripS brand, pyStripS description, cond)

/-- A DOM element, reduced to the visible text the scraper reads. -/
structure Element where
  text : List Char
deriving DecidableEq

/-- The rendered page as the scraper queries it. `navOk` is whether
`driver.get` returns (rather than raising); `waitOk` is whether the
wait/confirm block completes without an exception escaping; `findCss` is
`driver.find_elements(By.CSS_SELECTOR, ·)` and `findPound` the XPath query for
elements whose text contains `'£'`, each `Except.error` when the call
raises. -/
structure Page where
  navOk : Bool
  waitOk : Bool
  findCss : String → Except Unit (List Element)
  findPound : Except Unit (List Element)

/-- The fixed, ordered structural selector list of `scrape_vinted_prices`. -/
def price_patterns : List String :=
  ["[class*='price']", "[data-testid*='price']", ".new-item-box__price",
   ".feed-grid__item [class*='price']", "[class*='Price']", "[class*='item-price']"]

/-- The collection body of the structural loop: keep each element's stripped
text when it is non-empty (`if price_text:`). -/
def collectTexts (es : List Element) : List (List Char) :=
  es.filterMap fun e =>
    let t := pyStrip e.text
    if t = [] then none else some t

/-- The structural `for pattern in price_patterns` loop: a raising
`find_elements` is skipped (`except: continue`), an empty match falls through
to the next pattern, and the first pattern with elements is collected and ends
the loop (`break`). -/
def structuralScan : List String → Page → List (List Char)
  | [], _ => []
  | p :: ps, page =>
    match page.findCss p with
    | .error _ => structuralScan ps page
    | .ok es => if es = [] then structuralScan ps page else collectTexts es

/-- The `£`-content fallback block: keep stripped texts that are non-empty and
contain `'£'`; a raising query leaves the collected list empty. -/
def poundFallback (page : Page) : List (List Char) :=
  match page.findPound with
  | .error _ => []
  | .ok es =>
    es.filterMap fun e =>
      let t := pyStrip e.text
      if t ≠ [] ∧ '£' ∈ t then some t else none

/-- The body of `scrape_vinted_prices` after a successful `driver.get` and
wait phase, paired with whether the `if not prices:` fallback block ran. -/
def extractPrices (page : Page) : List (List Char) × Bool :=
  let prices := structuralScan price_patterns page
  if prices = [] then (poundFallback page, true) else (prices, false)

/-- Embedding of `scrape_vinted_prices` with its fallback-consulted bit:
`driver.get` raising propagates (`Except.error`); an exception escaping the
wait block is caught and returns `[]`; otherwise the structural scan and, when
it collected nothing, the `£`-content fallback run. -/
def scrapeSteps (page : Page) : Except Unit (List (List Char) × Bool) :=
  if page.navOk then
    if page.waitOk then .ok (extractPrices page)
    else .ok ([], false)
  else .error ()

/-- Embedding of `scrape_vinted_prices` (the fragment list it returns, or the
exception it propagates). -/
def scrape_vinted_prices (page : Page) : Except Unit (List (List Char)) :=
  (scrapeSteps page).map Prod.fst

/-- Whether the run of `scrape_vinted_prices` consulted the `£`-content
fallback block. -/
def fallbackUsed (page : Page) : Bool :=
  match scrapeSteps page with
  | .ok (_, b) => b
  | .error _ => false

/-- The environment a run of `main` executes in: the page behaviour and
whether `setup_driver` returns a driver (rather than raising). -/
structure Env where
  setupOk : Bool
  page : Page

/-- How a run of `main` ends: the early `return` when no fragments were
scraped, the early `return` when no fragment parsed, the results report, the
`could not calculate` branch, or the top-level `except` handler. -/
inductive Outcome where
  | noPrices
  | noParsable
  | report (avg : ℚ)
  | noAverage
  | errorCaught
deriving DecidableEq

/-- What a run of `main` did: its outcome and whether the `finally` block
called `driver.quit()`. -/
structure RunResult where
  outcome : Outcome
  quitCalled : Bool
deriving DecidableEq

/-- Embedding of `main` from user input onward: `try` to set up the driver and
scrape; any exception reaches the top-level `except`; the `finally` block
calls `driver.quit()` exactly when `driver` is not `None`, i.e. when setup
returned one. -/
def mainRun (env : Env) : RunResult :=
  if env.setupOk then
    match scrape_vinted_prices env.page with
    | .error _ => ⟨.errorCaught, true⟩
    | .ok priceStrings =>
      if priceStrings = [] then ⟨.noPrices, true⟩
      else
        let cleanedPrices := priceStrings.filterMap clean_price
        if cleanedPrices = [] then ⟨.noParsable, true⟩
        else
          match calculate_average_price cleanedPrices with
          | some avg => ⟨.report avg, true⟩
          | none => ⟨.noAverage, true⟩
  else ⟨.errorCaught, false⟩

/-! ### Character and list helper lemmas -/

theorem isDigitC_iff (c : Char) : isDigitC c = true ↔ 48 ≤ c.toNat ∧ c.toNat ≤ 57 := by
  simp [isDigitC]

theorem not_pound_of_digit {c : Char} (h : isDigitC c = true) : c ≠ '£' := by
  rintro rfl
  exact absurd h (by decide)

theorem not_dot_of_digit {c : Char} (h : isDigitC c = true) : c ≠ '.' := by
  rintro rfl
  exact absurd h (by decide)

theorem not_space_of_digit {c : Char} (h : isDigitC c = true) : isPySpace c = false := by
  rw [isDigitC_iff] at h
  simp only [isPySpace, Bool.or_eq_false_iff, decide_eq_false_iff_not]
  omega

theorem dropWhile_eq_self_of_all {p : Char → Bool} {l : List Char}
    (h : ∀ c ∈ l, p c = false) : l.dropWhile p = l := by
  cases l with
  | nil => rfl
  | cons c cs => simp [List.dropWhile_cons, h c (by simp)]

theorem pyStrip_eq_self_of_all {l : List Char} (h : ∀ c ∈ l, isPySpace c = false) :
    pyStrip l = l := by
  unfold pyStrip
  rw [dropWhile_eq_self_of_all h, dropWhile_eq_self_of_all, List.reverse_reverse]
  intro c hc
  exact h c (by simpa using hc)

theorem takeWhile_append_cons {p : Char → Bool} (ds : List Char) (c : Char) (fs : List Char)
    (hds : ∀ x ∈ ds, p x = true) (hc : p c = false) :
    (ds ++ c :: fs).takeWhile p = ds ∧ (ds ++ c :: fs).dropWhile p = c :: fs := by
  induction ds with
  | nil => simp [List.takeWhile_cons, List.dropWhile_cons, hc]
  | cons d ds ih =>
    have hd : p d = true := hds d (by simp)
    have h2 := ih fun x hx => hds x (by simp [hx])
    simp [List.takeWhile_cons, List.dropWhile_cons, hd, h2.1, h2.2]

/-! ### Digit-string arithmetic -/

theorem natOfDigits_concat (l : List Char) (c : Char) :
    natOfDigits (l ++ [c]) = 10 * natOfDigits l + (c.toNat - 48) := by
  simp [natOfDigits, List.foldl_append]

theorem natOfDigits_replicate_zero (m : Nat) (l : List Char) :
    natOfDigits (List.replicate m '0' ++ l) = natOfDigits l := by
  induction m with
  | zero => rfl
  | succ n ih =>
    have hrep : List.replicate (n + 1) '0' ++ l = '0' :: (List.replicate n '0' ++ l) := by
      simp [List.replicate_succ]
    rw [hrep]
    show List.foldl _ (10 * 0 + ('0'.toNat - 48)) _ = _
    exact ih

/-- Decimal rendering of a natural number, most significant digit first. -/
def natToDigits (n : Nat) : List Char :=
  if h : n < 10 then [Char.ofNat (48 + n)]
  else natToDigits (n / 10) ++ [Char.ofNat (48 + n % 10)]
termination_by n
decreasing_by exact Nat.div_lt_self (by omega) (by omega)

theorem toNat_ofNat_digit {m : Nat} (h : m < 10) : (Char.ofNat (48 + m)).toNat = 48 + m := by
  interval_cases m <;> decide

theorem isDigitC_ofNat_digit {m : Nat} (h : m < 10) : isDigitC (Char.ofNat (48 + m)) = true := by
  interval_cases m <;> decide

theorem natToDigits_all_digit (n : Nat) : ∀ c ∈ natToDigits n, isDigitC c = true := by
  induction n using Nat.strong_induction_on with
  | _ n ih =>
    rw [natToDigits]
    split
    · next h =>
      intro c hc
      rw [List.mem_singleton] at hc
      subst hc
      exact isDigitC_ofNat_digit h
    · next h =>
      intro c hc
      rw [List.mem_append] at hc
      rcases hc with h1 | h2
      · exact ih (n / 10) (Nat.div_lt_self (by omega) (by omega)) c h1
      · rw [List.mem_singleton] at h2
        subst h2
        exact isDigitC_ofNat_digit (Nat.mod_lt _ (by omega))

theorem natOfDigits_natToDigits (n : Nat) : natOfDigits (natToDigits n) = n := by
  induction n using Nat.strong_induction_on with
  | _ n ih =>
    rw [natToDigits]
    split
    · next h =>
      show natOfDigits [Char.ofNat (48 + n)] = n
      show 10 * 0 + ((Char.ofNat (48 + n)).toNat - 48) = n
      rw [toNat_ofNat_digit h]
      omega
    · next h =>
      rw [natOfDigits_concat, ih (n / 10) (Nat.div_lt_self (by omega) (by omega)),
        toNat_ofNat_digit (Nat.mod_lt _ (by omega))]
      omega

theorem natToDigits_ne_nil (n : Nat) : natToDigits n ≠ [] := by
  rw [natToDigits]
  split <;> simp

theorem natToDigits_length_le : ∀ n k : Nat, 1 ≤ k → n < 10 ^ k → (natToDigits n).length ≤ k := by
  intro n
  induction n using Nat.strong_induction_on with
  | _ n ih =>
    intro k hk hn
    rw [natToDigits]
    split
    · next h => simpa using hk
    · next h =>
      rw [List.length_append, List.length_singleton]
      have hk2 : 2 ≤ k := by
        rcases Nat.lt_or_ge k 2 with hlt | hge
        · interval_cases k
          · omega
        · exact hge
      have hdiv : n / 10 < 10 ^ (k - 1) := by
        rw [Nat.div_lt_iff_lt_mul (by omega)]
        calc n < 10 ^ k := hn
          _ = 10 ^ (k - 1) * 10 := by
            rw [← pow_succ]
            congr 1
            omega
      have := ih (n / 10) (Nat.div_lt_self (by omega) (by omega)) (k - 1) (by omega) hdiv
      omega

/-- Left-pad a digit string with `'0'` to length `k`. -/
def padZeros (k : Nat) (l : List Char) : List Char :=
  List.replicate (k - l.length) '0' ++ l

theorem padZeros_length {k : Nat} {l : List Char} (h : l.length ≤ k) :
    (padZeros k l).length = k := by
  simp only [padZeros, List.length_append, List.length_replicate]
  omega

theorem padZeros_all_digit {k : Nat} {l : List Char} (h : ∀ c ∈ l, isDigitC c = true) :
    ∀ c ∈ padZeros k l, isDigitC c = true := by
  intro c hc
  rw [padZeros, List.mem_append] at hc
  rcases hc with h1 | h2
  · rw [List.eq_of_mem_replicate h1]
    decide
  · exact h c h2

theorem natOfDigits_padZeros (k : Nat) (l : List Char) :
    natOfDigits (padZeros k l) = natOfDigits l :=
  natOfDigits_replicate_zero _ _

/-! ### Scanner lemmas: the regex token and its conversion -/

theorem pyFloat_digits (ds : List Char) (hne : ds ≠ [])
    (hds : ∀ c ∈ ds, isDigitC c = true) :
    pyFloat ds = some (natOfDigits ds : ℚ) := by
  have h1 : ds.takeWhile notDot = ds :=
    List.takeWhile_eq_self_iff.mpr fun x hx => by
      simp only [notDot, decide_eq_true_iff]
      exact not_dot_of_digit (hds x hx)
  have h2 : ds.dropWhile notDot = [] :=
    List.dropWhile_eq_nil_iff.mpr fun x hx => by
      simp only [notDot, decide_eq_true_iff]
      exact not_dot_of_digit (hds x hx)
  simp [pyFloat, h1, h2, List.all_eq_true.mpr hds, hne]

theorem pyFloat_digits_dot (ds fs : List Char) (hne : ds ≠ [])
    (hds : ∀ c ∈ ds, isDigitC c = true) (hfs : ∀ c ∈ fs, isDigitC c = true) :
    pyFloat (ds ++ '.' :: fs) =
      some ((natOfDigits ds : ℚ) + (natOfDigits fs : ℚ) / 10 ^ fs.length) := by
  have h := takeWhile_append_cons (p := notDot) ds '.' fs
    (fun x hx => by
      simp only [notDot, decide_eq_true_iff]
      exact not_dot_of_digit (hds x hx))
    (by decide)
  simp [pyFloat, h.1, h.2, List.all_eq_true.mpr hds, List.all_eq_true.mpr hfs, hne]

theorem tokenAt_digits_dot (ds fs : List Char)
    (hds : ∀ c ∈ ds, isDigitC c = true) (hfs : ∀ c ∈ fs, isDigitC c = true) :
    tokenAt (ds ++ '.' :: fs) = ds ++ '.' :: fs := by
  have h := takeWhile_append_cons (p := isDigitC) ds '.' fs hds (by decide)
  rw [tokenAt]
  rw [h.2, h.1]
  simp [List.takeWhile_eq_self_iff.mpr hfs]

theorem findFirstNum_cons_digit {c : Char} (cs : List Char) (h : isDigitC c = true) :
    findFirstNum (c :: cs) = some (tokenAt (c :: cs)) := by
  simp [findFirstNum, h]

theorem clean_price_digits_dot (ds fs : List Char) (hne : ds ≠ [])
    (hds : ∀ c ∈ ds, isDigitC c = true) (hfs : ∀ c ∈ fs, isDigitC c = true) :
    clean_price (ds ++ '.' :: fs) =
      some ((natOfDigits ds : ℚ) + (natOfDigits fs : ℚ) / 10 ^ fs.length) := by
  have hmem : ∀ c ∈ ds ++ '.' :: fs, isDigitC c = true ∨ c = '.' := by
    intro c hc
    rw [List.mem_append, List.mem_cons] at hc
    rcases hc with h1 | h2 | h3
    · exact Or.inl (hds c h1)
    · exact Or.inr h2
    · exact Or.inl (hfs c h3)
  have hfilter : (ds ++ '.' :: fs).filter notPound = ds ++ '.' :: fs :=
    List.filter_eq_self.mpr fun a ha => by
      simp only [notPound, decide_eq_true_iff]
      rcases hmem a ha with h | h
      · exact not_pound_of_digit h
      · subst h
        decide
  have hstrip : pyStrip (ds ++ '.' :: fs) = ds ++ '.' :: fs :=
    pyStrip_eq_self_of_all fun c hc => by
      rcases hmem c hc with h | h
      · exact not_space_of_digit h
      · subst h
        decide
  obtain ⟨d, ds', rfl⟩ : ∃ d ds', ds = d :: ds' := by
    cases ds with
    | nil => exact absurd rfl hne
    | cons d ds' => exact ⟨d, ds', rfl⟩
  have hsne : (d :: ds') ++ '.' :: fs ≠ [] := by simp
  rw [clean_price, if_neg hsne, hfilter, hstrip]
  rw [show (d :: ds') ++ '.' :: fs = d :: (ds' ++ '.' :: fs) from rfl]
  rw [findFirstNum_cons_digit _ (hds d (by simp))]
  rw [show d :: (ds' ++ '.' :: fs) = (d :: ds') ++ '.' :: fs from rfl]
  rw [tokenAt_digits_dot _ _ hds hfs]
  have hpf := pyFloat_digits_dot (d :: ds') fs hne hds hfs
  rw [List.cons_append] at hpf
  simp [hpf]

/-! ### Shape of a matched token and inversion of the parser -/

theorem tokenAt_shape (l : List Char) :
    tokenAt l = l.takeWhile isDigitC ∨
    ∃ rest, l.dropWhile isDigitC = '.' :: rest ∧
      tokenAt l = l.takeWhile isDigitC ++ '.' :: rest.takeWhile isDigitC := by
  rw [tokenAt]
  split
  · next rest heq => exact Or.inr ⟨rest, heq, rfl⟩
  · next => exact Or.inl rfl

theorem findFirstNum_some_wf : ∀ l tok : List Char, findFirstNum l = some tok →
    ∃ ds, ds ≠ [] ∧ (∀ c ∈ ds, isDigitC c = true) ∧
      (tok = ds ∨ ∃ fs, (∀ c ∈ fs, isDigitC c = true) ∧ tok = ds ++ '.' :: fs) := by
  intro l
  induction l with
  | nil =>
    intro tok h
    simp [findFirstNum] at h
  | cons c cs ih =>
    intro tok h
    rw [findFirstNum] at h
    split at h
    · next hc =>
      have htok : tok = tokenAt (c :: cs) := (Option.some.injEq _ _ ▸ h).symm
      have htake : ∀ x ∈ (c :: cs).takeWhile isDigitC, isDigitC x = true :=
        fun x hx => List.mem_takeWhile_imp hx
      have htne : (c :: cs).takeWhile isDigitC ≠ [] := by
        simp [List.takeWhile_cons, hc]
      rcases tokenAt_shape (c :: cs) with hsh | ⟨rest, _, hsh⟩
      · exact ⟨_, htne, htake, Or.inl (htok.trans hsh)⟩
      · exact ⟨_, htne, htake,
          Or.inr ⟨rest.takeWhile isDigitC, fun x hx => List.mem_takeWhile_imp hx,
            htok.trans hsh⟩⟩
    · exact ih tok h

theorem pyFloat_some_of_wf {tok : List Char}
    (h : ∃ ds, ds ≠ [] ∧ (∀ c ∈ ds, isDigitC c = true) ∧
      (tok = ds ∨ ∃ fs, (∀ c ∈ fs, isDigitC c = true) ∧ tok = ds ++ '.' :: fs)) :
    ∃ v : ℚ, pyFloat tok = some v ∧ 0 ≤ v := by
  obtain ⟨ds, hne, hds, hsh | ⟨fs, hfs, hsh⟩⟩ := h
  · rw [hsh]
    exact ⟨_, pyFloat_digits ds hne hds, Nat.cast_nonneg _⟩
  · rw [hsh]
    exact ⟨_, pyFloat_digits_dot ds fs hne hds hfs, by positivity⟩

theorem pyFloat_some_shape {tok : List Char} {v : ℚ} (h : pyFloat tok = some v) :
    0 ≤ v ∧ ∃ T L : ℕ, v = (T : ℚ) / 10 ^ L := by
  rw [pyFloat] at h
  split at h
  · split at h
    · next =>
      split at h
      · exact absurd h (by simp)
      · rw [Option.some.injEq] at h
        subst h
        refine ⟨by positivity, natOfDigits (tok.takeWhile notDot), 0, ?_⟩
        simp
    · next fp _ =>
      split at h
      · rw [Option.some.injEq] at h
        subst h
        constructor
        · positivity
        · refine ⟨natOfDigits (tok.takeWhile notDot) * 10 ^ fp.length + natOfDigits fp,
            fp.length, ?_⟩
          have hp : (10 : ℚ) ^ fp.length ≠ 0 := by positivity
          field_simp
      · exact absurd h (by simp)
  · exact absurd h (by simp)

theorem clean_price_some_val {s : List Char} {v : ℚ} (h : clean_price s = some v) :
    ∃ tok, findFirstNum (pyStrip (s.filter notPound)) = some tok ∧ pyFloat tok = some v := by
  rw [clean_price] at h
  split at h
  · exact absurd h (by simp)
  · split at h
    · next tok heq =>
      split at h
      · next w hw =>
        rw [Option.some.injEq] at h
        subst h
        exact ⟨tok, heq, hw⟩
      · exact absurd h (by simp)
    · exact absurd h (by simp)

/-! ### Decimal rendering and the parse round trip -/

/-- A decimal rendering of a non-negative rational whose denominator divides a
power of ten: scale to an integer over `10 ^ k` and print `int.frac` with the
fractional part zero-padded to `k` digits. -/
def renderDecimal (q : ℚ) : List Char :=
  let k := max 1 q.den
  let scaled := q.num.toNat * (10 ^ k / q.den)
  natToDigits (scaled / 10 ^ k) ++ '.' :: padZeros k (natToDigits (scaled % 10 ^ k))

theorem dvd_pow_ten_self : ∀ d m : Nat, d ∣ 10 ^ m → d ∣ 10 ^ d := by
  intro d
  induction d using Nat.strong_induction_on with
  | _ d ih =>
    intro m hdvd
    rcases Nat.eq_zero_or_pos d with rfl | hd0
    · have : (10 : Nat) ^ m = 0 := Nat.eq_zero_of_zero_dvd hdvd
      exact absurd this (by positivity)
    rcases Nat.lt_or_ge d 2 with hd1 | hd2
    · have hd : d = 1 := by omega
      subst hd
      exact one_dvd _
    · obtain ⟨p, hp, hpd⟩ := Nat.exists_prime_and_dvd (show d ≠ 1 by omega)
      have hp10 : p ∣ 10 := hp.dvd_of_dvd_pow (hpd.trans hdvd)
      obtain ⟨e, rfl⟩ := hpd
      have hp2 : 2 ≤ p := hp.two_le
      have he0 : 0 < e := by
        rcases Nat.eq_zero_or_pos e with rfl | h
        · omega
        · exact h
      have helt : e < p * e := by
        calc e < 2 * e := by omega
          _ ≤ p * e := Nat.mul_le_mul_right e hp2
      have hedvd : e ∣ 10 ^ m := (Dvd.intro_left p rfl).trans hdvd
      have ihe : e ∣ 10 ^ e := ih e helt m hedvd
      have h1 : p * e ∣ 10 ^ (e + 1) := by
        rw [pow_succ, mul_comm ((10 : Nat) ^ e) 10]
        exact mul_dvd_mul hp10 ihe
      exact h1.trans (pow_dvd_pow _ (by omega))

theorem clean_price_renderDecimal {v : ℚ} (h0 : 0 ≤ v) (hden : ∃ m, v.den ∣ 10 ^ m) :
    clean_price (renderDecimal v) = some v := by
  obtain ⟨m, hm⟩ := hden
  have hk1 : 1 ≤ max 1 v.den := le_max_left _ _
  have hdvd : v.den ∣ 10 ^ max 1 v.den :=
    (dvd_pow_ten_self v.den m hm).trans (pow_dvd_pow _ (le_max_right _ _))
  have hD0 : v.den ≠ 0 := v.den_nz
  have hpow0 : (0 : Nat) < 10 ^ max 1 v.den := by positivity
  have hrender : renderDecimal v =
      natToDigits (v.num.toNat * (10 ^ max 1 v.den / v.den) / 10 ^ max 1 v.den) ++
        '.' :: padZeros (max 1 v.den)
          (natToDigits (v.num.toNat * (10 ^ max 1 v.den / v.den) % 10 ^ max 1 v.den)) := rfl
  rw [hrender,
    clean_price_digits_dot _ _ (natToDigits_ne_nil _) (natToDigits_all_digit _)
      (padZeros_all_digit (natToDigits_all_digit _))]
  rw [natOfDigits_natToDigits, natOfDigits_padZeros, natOfDigits_natToDigits,
    padZeros_length (natToDigits_length_le _ _ hk1 (Nat.mod_lt _ hpow0))]
  congr 1
  have hQpow0 : ((10 : ℚ) ^ max 1 v.den) ≠ 0 := by positivity
  have hQD0 : ((v.den : ℚ)) ≠ 0 := by
    exact_mod_cast hD0
  have hmod : v.num.toNat * (10 ^ max 1 v.den / v.den) / 10 ^ max 1 v.den * 10 ^ max 1 v.den +
      v.num.toNat * (10 ^ max 1 v.den / v.den) % 10 ^ max 1 v.den =
      v.num.toNat * (10 ^ max 1 v.den / v.den) := Nat.div_add_mod' _ _
  have hsplit :
      ((v.num.toNat * (10 ^ max 1 v.den / v.den) / 10 ^ max 1 v.den : ℕ) : ℚ) +
        ((v.num.toNat * (10 ^ max 1 v.den / v.den) % 10 ^ max 1 v.den : ℕ) : ℚ) /
          10 ^ max 1 v.den =
      ((v.num.toNat * (10 ^ max 1 v.den / v.den) : ℕ) : ℚ) / 10 ^ max 1 v.den := by
    rw [eq_div_iff hQpow0, add_mul, div_mul_cancel₀ _ hQpow0]
    exact_mod_cast congrArg (fun n : ℕ => (n : ℚ)) hmod
  rw [hsplit]
  have hnum : ((v.num.toNat : ℕ) : ℚ) = (v.num : ℚ) := by
    have h := Int.toNat_of_nonneg (Rat.num_nonneg.mpr h0)
    exact_mod_cast congrArg (fun z : ℤ => (z : ℚ)) h
  have hcast : ((v.num.toNat * (10 ^ max 1 v.den / v.den) : ℕ) : ℚ) =
      (v.num : ℚ) * ((10 : ℚ) ^ max 1 v.den / (v.den : ℚ)) := by
    rw [Nat.cast_mul, Nat.cast_div hdvd hQD0, hnum]
    push_cast
    ring
  have hfrac : (10 : ℚ) ^ max 1 v.den / (v.den : ℚ) / 10 ^ max 1 v.den =
      ((v.den : ℚ))⁻¹ := by
    field_simp
    ring
  rw [hcast, mul_div_assoc, hfrac, ← div_eq_mul_inv]
  exact Rat.num_div_den v

/-! ### Idempotence of stripping, and the extraction loop -/

theorem pyStrip_as_rdropWhile (l : List Char) :
    pyStrip l = List.rdropWhile isPySpace (l.dropWhile isPySpace) := rfl

theorem dropWhile_rdropWhile_dropWhile (l : List Char) :
    List.dropWhile isPySpace (List.rdropWhile isPySpace (l.dropWhile isPySpace)) =
      List.rdropWhile isPySpace (l.dropWhile isPySpace) := by
  rcases hrd : List.rdropWhile isPySpace (l.dropWhile isPySpace) with _ | ⟨c, cs⟩
  · rfl
  · obtain ⟨u, hu⟩ := List.rdropWhile_prefix isPySpace (l.dropWhile isPySpace)
    rw [hrd] at hu
    have hm : l.dropWhile isPySpace = c :: (cs ++ u) := by
      rw [← hu]
      rfl
    have hdw : List.dropWhile isPySpace (l.dropWhile isPySpace) = l.dropWhile isPySpace :=
      List.dropWhile_idempotent _ _
    rw [hm, List.dropWhile_cons] at hdw
    have hc : isPySpace c = false := by
      by_contra hcc
      rw [Bool.not_eq_false] at hcc
      rw [if_pos hcc] at hdw
      have hsuf := List.dropWhile_suffix (l := cs ++ u) isPySpace
      rw [hdw] at hsuf
      have hlen := List.IsSuffix.length_le hsuf
      simp at hlen
    rw [List.dropWhile_cons, hc]
    simp

theorem pyStrip_idem (l : List Char) : pyStrip (pyStrip l) = pyStrip l := by
  rw [pyStrip_as_rdropWhile, pyStrip_as_rdropWhile l, dropWhile_rdropWhile_dropWhile,
    List.rdropWhile_idempotent]

theorem pyStripS_idem (s : String) : pyStripS (pyStripS s) = pyStripS s := by
  simp [pyStripS, pyStrip_idem]

theorem structuralScan_first_match (page : Page) :
    ∀ (pre : List String) (r : String) (post : List String) (es : List Element),
      (∀ p ∈ pre, page.findCss p = .error () ∨ page.findCss p = .ok []) →
      page.findCss r = .ok es → es ≠ [] →
      structuralScan (pre ++ r :: post) page = collectTexts es := by
  intro pre
  induction pre with
  | nil =>
    intro r post es _ hr hes
    simp [structuralScan, hr, hes]
  | cons p ps ih =>
    intro r post es hpre hr hes
    have h2 := ih r post es (fun q hq => hpre q (by simp [hq])) hr hes
    rcases hpre p (by simp) with h | h <;>
      simpa [structuralScan, h] using h2

theorem structuralScan_nil_of_no_match (page : Page) :
    ∀ rules : List String,
      (∀ p ∈ rules, page.findCss p = .error () ∨ page.findCss p = .ok []) →
      structuralScan rules page = [] := by
  intro rules
  induction rules with
  | nil => intro _; rfl
  | cons p ps ih =>
    intro h
    have h2 := ih fun q hq => h q (by simp [hq])
    rcases h p (by simp) with hp | hp <;> simpa [structuralScan, hp] using h2

theorem collectTexts_eq_filter_map (es : List Element) :
    collectTexts es =
      (es.map fun e => pyStrip e.text).filter fun t => decide (t ≠ []) := by
  induction es with
  | nil => rfl
  | cons e es ih =>
    by_cases h : pyStrip e.text = [] <;>
      simp [collectTexts, List.filterMap_cons, List.filter_cons, h] <;>
      simpa [collectTexts] using ih

/-! ### Concrete pages and environments used as witnesses -/

/-- A page on which no structural selector and no `£`-content query matches. -/
def pageNoMatch : Page where
  navOk := true
  waitOk := true
  findCss := fun _ => .ok []
  findPound := .ok []

/-- An idle run environment: driver acquired, empty page. -/
def envNoMatch : Env := ⟨true, pageNoMatch⟩

/-- A page whose second structural selector is the only one matching. -/
def pageSecondRule : Page where
  navOk := true
  waitOk := true
  findCss := fun p => if p = "[data-testid*='price']" then .ok [⟨"£9.99".toList⟩] else .ok []
  findPound := .ok []

/-- A page where the first structural selector matches one element whose text
strips to nothing, while an element containing `£` exists. -/
def pageBlankPrice : Page where
  navOk := true
  waitOk := true
  findCss := fun p => if p = "[class*='price']" then .ok [⟨[' ']⟩] else .ok []
  findPound := .ok [⟨"£5".toList⟩]

/-- A page whose navigation call (`driver.get`) raises. -/
def pageNavRaises : Page where
  navOk := false
  waitOk := true
  findCss := fun _ => .ok []
  findPound := .ok []

/-- The environment of a run in which the driver starts but navigation fails. -/
def envNavRaises : Env := ⟨true, pageNavRaises⟩

/-- A page on which navigation succeeds but the wait/confirm block raises. -/
def pageWaitRaises : Page where
  navOk := true
  waitOk := false
  findCss := fun _ => .ok []
  findPound := .ok []

/-- The environment of a run in which the driver starts but the wait fails. -/
def envWaitRaises : Env := ⟨true, pageWaitRaises⟩

/-! ### The claims -/

/-- C1: `clean_price` follows the spec's parsing algorithm (remove every `£`,
trim, fail on an empty remainder, else convert the first maximal
`digits [. digits*]` substring), and produces the specified values on the
spec's six example inputs, including `"£1,200" ↦ 1.0`. -/
theorem clean_price_follows_spec_algorithm :
    (∀ s, clean_price s = specParsePrice s) ∧
    clean_price "£12.50".toList = some (12.50 : ℚ) ∧
    clean_price "£ 15.99".toList = some (15.99 : ℚ) ∧
    clean_price "Price: £20".toList = some 20 ∧
    clean_price "".toList = none ∧
    clean_price "no price here".toList = none ∧
    clean_price "£1,200".toList = some 1 := by
  refine ⟨?_, ?_, ?_, ?_, ?_, ?_, ?_⟩
  · intro s
    by_cases hs : s = []
    · subst hs
      rfl
    · simp only [clean_price, specParsePrice, if_neg hs]
      by_cases hr : pyStrip (s.filter notPound) = []
      · simp [hr, findFirstNum]
      · rw [if_neg hr]
        cases h : findFirstNum (pyStrip (s.filter notPound)) with
        | none => rfl
        | some tok =>
          show (match pyFloat tok with | some v => some v | none => none) = pyFloat tok
          cases pyFloat tok <;> rfl
  all_goals with_unfolding_all rfl

/-- C2: the structural phase of extraction has first-match semantics: splitting
the fixed selector list around the first rule that matches elements (every
earlier rule raising or matching none), the phase returns exactly the trimmed
non-empty texts of that one rule's elements; later rules contribute nothing. -/
theorem structural_phase_first_match (page : Page) (pre : List String) (r : String)
    (post : List String) (es : List Element)
    (hsplit : price_patterns = pre ++ r :: post)
    (hpre : ∀ p ∈ pre, page.findCss p = .error () ∨ page.findCss p = .ok [])
    (hr : page.findCss r = .ok es) (hes : es ≠ []) :
    structuralScan price_patterns page =
      (es.map fun e => pyStrip e.text).filter fun t => decide (t ≠ []) := by
  rw [hsplit, structuralScan_first_match page pre r post es hpre hr hes,
    collectTexts_eq_filter_map]

/-- Witness for C2: on `pageSecondRule` only the second selector matches and
the structural phase returns exactly its element's trimmed text. -/
theorem structural_phase_first_match_witness :
    structuralScan price_patterns pageSecondRule = ["£9.99".toList] :=
  (structural_phase_first_match pageSecondRule ["[class*='price']"]
    "[data-testid*='price']"
    [".new-item-box__price", ".feed-grid__item [class*='price']", "[class*='Price']",
      "[class*='item-price']"]
    [⟨"£9.99".toList⟩]
    (by with_unfolding_all rfl)
    (fun p hp => by
      rw [List.mem_singleton] at hp
      subst hp
      exact Or.inr (by with_unfolding_all rfl))
    (by with_unfolding_all rfl)
    (by simp)).trans (by with_unfolding_all rfl)

/-- Counterexample to C3: when the renderer cannot reach the page (the
navigation call raises), `scrape_vinted_prices` propagates the exception
instead of returning an empty sequence, and the run ends in the top-level
error handler rather than reporting that no prices were found. -/
theorem render_failure_counterexample :
    scrape_vinted_prices pageNavRaises = .error () ∧
    mainRun envNavRaises = ⟨.errorCaught, true⟩ ∧
    (mainRun envNavRaises).outcome ≠ .noPrices := by
  refine ⟨rfl, rfl, by decide⟩

/-- C3 amended: a failure inside the wait/confirm block is recovered locally
(`scrape_vinted_prices` returns `[]`, the run reports no prices and terminates
normally), but a failure of the navigation call itself propagates to the
top-level handler, which still releases the driver. -/
theorem render_failure_handling (env : Env) (hs : env.setupOk = true) :
    (env.page.navOk = true → env.page.waitOk = false →
      scrape_vinted_prices env.page = .ok [] ∧ mainRun env = ⟨.noPrices, true⟩) ∧
    (env.page.navOk = false →
      scrape_vinted_prices env.page = .error () ∧ mainRun env = ⟨.errorCaught, true⟩) := by
  constructor
  · intro hn hw
    have h1 : scrape_vinted_prices env.page = .ok [] := by
      simp only [scrape_vinted_prices, scrapeSteps, hn, hw]
      rfl
    exact ⟨h1, by simp [mainRun, hs, h1]⟩
  · intro hn
    have h1 : scrape_vinted_prices env.page = .error () := by
      simp only [scrape_vinted_prices, scrapeSteps, hn]
      rfl
    exact ⟨h1, by simp [mainRun, hs, h1]⟩

/-- Witness for the amended C3 on the concrete wait-failure environment. -/
theorem render_failure_handling_witness :
    scrape_vinted_prices pageWaitRaises = .ok [] ∧
    mainRun envWaitRaises = ⟨.noPrices, true⟩ :=
  (render_failure_handling envWaitRaises rfl).1 rfl rfl

/-- Counterexample to C4: on `pageBlankPrice` the first structural rule matches
one element (whose text strips to empty), yet the `£`-content fallback is
consulted and supplies the result — contradicting "when some structural rule
matches one or more elements, the fallback is never consulted". -/
theorem content_rule_counterexample :
    pageBlankPrice.findCss "[class*='price']" = .ok [⟨[' ']⟩] ∧
    ([⟨[' ']⟩] : List Element) ≠ [] ∧
    "[class*='price']" ∈ price_patterns ∧
    fallbackUsed pageBlankPrice = true ∧
    scrape_vinted_prices pageBlankPrice = .ok ["£5".toList] := by
  refine ⟨by with_unfolding_all rfl, by simp, by simp [price_patterns],
    by with_unfolding_all rfl, by with_unfolding_all rfl⟩

/-- C4 amended: once navigation and wait succeed, the `£`-content fallback is
consulted iff the structural phase collected no fragments — in particular
whenever no structural rule matched any element, but also when the matching
rule's texts all strip to empty. -/
theorem content_rule_iff_structural_empty (page : Page)
    (hn : page.navOk = true) (hw : page.waitOk = true) :
    (fallbackUsed page = true ↔ structuralScan price_patterns page = []) ∧
    ((∀ p ∈ price_patterns, page.findCss p = .error () ∨ page.findCss p = .ok []) →
      fallbackUsed page = true) := by
  have hfb : fallbackUsed page = (extractPrices page).2 := by
    simp [fallbackUsed, scrapeSteps, hn, hw]
  have hfb2 : (extractPrices page).2 =
      if structuralScan price_patterns page = [] then true else false := by
    rw [extractPrices]
    by_cases hsc : structuralScan price_patterns page = [] <;> simp [hsc]
  constructor
  · rw [hfb, hfb2]
    by_cases hsc : structuralScan price_patterns page = [] <;> simp [hsc]
  · intro h
    rw [hfb, hfb2, if_pos (structuralScan_nil_of_no_match page _ h)]

/-- Witness for the amended C4: on the all-empty page the fallback runs. -/
theorem content_rule_iff_structural_empty_witness :
    fallbackUsed pageNoMatch = true :=
  (content_rule_iff_structural_empty pageNoMatch rfl rfl).2 fun _ _ => Or.inr rfl

/-- C5: `calculate_average_price` is the arithmetic mean on a non-empty list
and `None` on the empty list, matching the spec's two examples. -/
theorem calculate_average_price_mean (l : List ℚ) :
    (l ≠ [] → calculate_average_price l = some (l.sum / (l.length : ℚ))) ∧
    calculate_average_price ([] : List ℚ) = none ∧
    calculate_average_price [10, 20, 30] = some 20 := by
  refine ⟨fun h => by rw [calculate_average_price, if_neg h], rfl, ?_⟩
  with_unfolding_all rfl

/-- Witness for C5 at the concrete list `[10, 20, 30]`. -/
theorem calculate_average_price_mean_witness :
    calculate_average_price [10, 20, 30] =
      some (([10, 20, 30] : List ℚ).sum / (([10, 20, 30] : List ℚ).length : ℚ)) :=
  (calculate_average_price_mean [10, 20, 30]).1 (List.cons_ne_nil _ _)

/-- C6: the search URL is the fixed endpoint, `?search_text=` and the
space-joined, stripped, space-to-plus query; it contains no raw space; the
stripped query is an infix of the verbatim space-joined inputs; and every
non-space character of the stripped query survives the substitution unchanged
at its position. -/
theorem construct_search_url_spec (b d c : List Char) :
    construct_search_url b d c =
      baseUrl ++ "?search_text=".toList ++
        (pyStrip (b ++ ' ' :: d ++ ' ' :: c)).map spaceToPlus ∧
    ' ' ∉ construct_search_url b d c ∧
    (∃ t u, t ++ pyStrip (b ++ ' ' :: d ++ ' ' :: c) ++ u = b ++ ' ' :: d ++ ' ' :: c) ∧
    (∀ i ch, (pyStrip (b ++ ' ' :: d ++ ' ' :: c)).get? i = some ch → ch ≠ ' ' →
      ((pyStrip (b ++ ' ' :: d ++ ' ' :: c)).map spaceToPlus).get? i = some ch) := by
  refine ⟨rfl, ?_, ?_, ?_⟩
  · intro hmem
    simp only [construct_search_url, List.mem_append] at hmem
    rcases hmem with (h | h) | h
    · exact absurd h (by decide)
    · exact absurd h (by decide)
    · rw [List.mem_map] at h
      obtain ⟨x, _, hfx⟩ := h
      by_cases hx : x = ' '
      · rw [hx] at hfx
        exact absurd hfx (by decide)
      · rw [show spaceToPlus x = x from if_neg hx] at hfx
        exact hx hfx
  · obtain ⟨u, hu⟩ := List.rdropWhile_prefix isPySpace
      ((b ++ ' ' :: d ++ ' ' :: c).dropWhile isPySpace)
    refine ⟨(b ++ ' ' :: d ++ ' ' :: c).takeWhile isPySpace, u, ?_⟩
    calc (b ++ ' ' :: d ++ ' ' :: c).takeWhile isPySpace ++
          pyStrip (b ++ ' ' :: d ++ ' ' :: c) ++ u
        = (b ++ ' ' :: d ++ ' ' :: c).takeWhile isPySpace ++
            (pyStrip (b ++ ' ' :: d ++ ' ' :: c) ++ u) := by
          rw [List.append_assoc]
      _ = (b ++ ' ' :: d ++ ' ' :: c).takeWhile isPySpace ++
            (b ++ ' ' :: d ++ ' ' :: c).dropWhile isPySpace := by
          rw [pyStrip_as_rdropWhile, hu]
      _ = b ++ ' ' :: d ++ ' ' :: c := List.takeWhile_append_dropWhile _ _
  · intro i ch hget hch
    rw [List.get?_map, hget]
    simp only [Option.map_some']
    rw [show spaceToPlus ch = ch from if_neg hch]

/-- Witness for C6 at brand `"Nike"`, description `"Air Max 90"`, condition
`"Very Good"`. -/
theorem construct_search_url_spec_witness :
    ' ' ∉ construct_search_url "Nike".toList "Air Max 90".toList "Very Good".toList ∧
    ((pyStrip ("Nike".toList ++ ' ' :: "Air Max 90".toList ++ ' ' :: "Very Good".toList)).map
        spaceToPlus).get? 0 = some 'N' :=
  ⟨(construct_search_url_spec "Nike".toList "Air Max 90".toList "Very Good".toList).2.1,
   (construct_search_url_spec "Nike".toList "Air Max 90".toList "Very Good".toList).2.2.2
     0 'N' (by with_unfolding_all rfl) (by decide)⟩

/-- C7: `clean_price` round-trips on its own output: a successfully parsed
value, rendered back as a decimal string, parses to the same value. -/
theorem clean_price_round_trip {s : List Char} {v : ℚ} (h : clean_price s = some v) :
    clean_price (renderDecimal v) = some v := by
  obtain ⟨tok, _, hpf⟩ := clean_price_some_val h
  obtain ⟨h0, T, L, hshape⟩ := pyFloat_some_shape hpf
  refine clean_price_renderDecimal h0 ⟨L, ?_⟩
  have hdvd := Rat.den_dvd (T : ℤ) ((10 : ℤ) ^ L)
  have hconv : Rat.divInt (T : ℤ) ((10 : ℤ) ^ L) = v := by
    rw [Rat.divInt_eq_div, hshape]
    push_cast
    ring
  rw [hconv] at hdvd
  exact_mod_cast hdvd

/-- Witness for C7 at the parse of `"£12.50"`. -/
theorem clean_price_round_trip_witness :
    clean_price (renderDecimal (12.50 : ℚ)) = some (12.50 : ℚ) :=
  clean_price_round_trip (s := "£12.50".toList) (by with_unfolding_all rfl)

/-- C8: on every exit path of `main`, a driver that was acquired is released:
whenever `setup_driver` returned a driver, the `finally` block calls
`driver.quit()`, whatever the outcome. -/
theorem driver_released_if_acquired (env : Env) (h : env.setupOk = true) :
    (mainRun env).quitCalled = true := by
  rw [mainRun, if_pos h]
  rcases hsc : scrape_vinted_prices env.page with e | ps
  · rfl
  · by_cases h1 : ps = []
    · simp [h1]
    · by_cases h2 : ps.filterMap clean_price = []
      · simp [h1, h2]
      · rcases havg : calculate_average_price (ps.filterMap clean_price) with _ | avg <;>
          simp [h1, h2, havg]

/-- Witness for C8 on a concrete idle environment. -/
theorem driver_released_if_acquired_witness :
    (mainRun envNoMatch).quitCalled = true :=
  driver_released_if_acquired envNoMatch rfl

theorem lookup_condition_menu {k v : String} (h : condition_menu.lookup k = some v) :
    v = "New With Tags" ∨ v = "New Without Tags" ∨ v = "Very Good" ∨
      v = "Good" ∨ v = "Satisfactory" := by
  simp only [condition_menu, List.lookup] at h
  repeat' split at h
  all_goals simp_all

theorem selectCondition_mem : ∀ (ins : List String) (c : String),
    selectCondition ins = some c →
    c = "New With Tags" ∨ c = "New Without Tags" ∨ c = "Very Good" ∨
      c = "Good" ∨ c = "Satisfactory" := by
  intro ins
  induction ins with
  | nil =>
    intro c h
    exact absurd h (by simp [selectCondition])
  | cons x rest ih =>
    intro c h
    rw [selectCondition] at h
    split at h
    · next lbl heq =>
      rw [Option.some.injEq] at h
      subst h
      exact lookup_condition_menu heq
    · exact ih c h

/-- C9: the condition loop skips any stripped answer that is not a menu key
(re-prompting on the rest of the stream), and whenever `get_user_input`
returns, the condition is one of the five fixed labels and the brand and
description carry no surrounding whitespace. -/
theorem get_user_input_validated :
    (∀ x xs, condition_menu.lookup (pyStripS x) = none →
      selectCondition (x :: xs) = selectCondition xs) ∧
    (∀ b d ins r, get_user_input b d ins = some r →
      (r.2.2 = "New With Tags" ∨ r.2.2 = "New Without Tags" ∨ r.2.2 = "Very Good" ∨
        r.2.2 = "Good" ∨ r.2.2 = "Satisfactory") ∧
      pyStripS r.1 = r.1 ∧ pyStripS r.2.1 = r.2.1) := by
  constructor
  · intro x xs h
    rw [selectCondition, h]
  · intro b d ins r h
    rw [get_user_input] at h
    rcases hsel : selectCondition ins with _ | cond
    · rw [hsel] at h
      exact absurd h (by simp)
    · rw [hsel] at h
      simp only [Option.map_some'] at h
      rw [Option.some.injEq] at h
      subst h
      exact ⟨selectCondition_mem ins cond hsel, pyStripS_idem b, pyStripS_idem d⟩

/-- Witness for C9: a rejected answer `"abc"` re-prompts, and on a concrete
input stream the returned triple is validated and trimmed. -/
theorem get_user_input_validated_witness :
    selectCondition ("abc" :: ["3"]) = selectCondition ["3"] ∧
    ((("Nike", "White Air Force 1", "Very Good") :
        String × String × String).2.2 = "New With Tags" ∨
      (("Nike", "White Air Force 1", "Very Good") :
        String × String × String).2.2 = "New Without Tags" ∨
      (("Nike", "White Air Force 1", "Very Good") :
        String × String × String).2.2 = "Very Good" ∨
      (("Nike", "White Air Force 1", "Very Good") :
        String × String × String).2.2 = "Good" ∨
      (("Nike", "White Air Force 1", "Very Good") :
        String × String × String).2.2 = "Satisfactory") ∧
    pyStripS (("Nike", "White Air Force 1", "Very Good") :
      String × String × String).1 = "Nike" ∧
    pyStripS (("Nike", "White Air Force 1", "Very Good") :
      String × String × String).2.1 = "White Air Force 1" :=
  ⟨get_user_input_validated.1 "abc" ["3"] (by with_unfolding_all rfl),
   (get_user_input_validated.2 "  Nike " "White Air Force 1  " ["7", " 3 "]
      ("Nike", "White Air Force 1", "Very Good") (by with_unfolding_all rfl))⟩

/-- C10: `clean_price` is total with non-negative values: every successful
parse is `≥ 0`, and the `ValueError` branch is unreachable — whenever the
regex matches a token, the float conversion succeeds and its value is
returned. -/
theorem clean_price_total_nonneg (s : List Char) :
    (∀ v, clean_price s = some v → 0 ≤ v) ∧
    (∀ tok, findFirstNum (pyStrip (s.filter notPound)) = some tok →
      (pyFloat tok).isSome = true ∧ clean_price s = pyFloat tok) := by
  constructor
  · intro v h
    obtain ⟨tok, _, hpf⟩ := clean_price_some_val h
    exact (pyFloat_some_shape hpf).1
  · intro tok htok
    obtain ⟨v, hv, h0⟩ := pyFloat_some_of_wf (findFirstNum_some_wf _ tok htok)
    have hsne : s ≠ [] := by
      rintro rfl
      rw [show pyStrip (List.filter notPound []) = [] from rfl] at htok
      exact absurd htok (by simp [findFirstNum])
    refine ⟨by rw [hv]; rfl, ?_⟩
    simp [clean_price, hsne, htok, hv]

/-- Witness for C10 at `"£12.50"` and its matched token `"12.50"`. -/
theorem clean_price_total_nonneg_witness :
    (0 : ℚ) ≤ 12.50 ∧
    (pyFloat "12.50".toList).isSome = true ∧
    clean_price "£12.50".toList = pyFloat "12.50".toList :=
  ⟨(clean_price_total_nonneg "£12.50".toList).1 (12.50 : ℚ) (by with_unfolding_all rfl),
   (clean_price_total_nonneg "£12.50".toList).2 "12.50".toList (by with_unfolding_all rfl)⟩

end VintedScraper
